import Mathlib

/-!
Shallow embedding of the Converter1 repository's conversion core
(`src/types.ts` and `src/services/converterService.ts`, plus the
precision-display formatter of the App revision in `src/unnamed/part_000`).

JS `number` values are modelled by `JsNum` (finite values as exact rationals,
plus NaN and the two infinities); JS strings by Lean `String`; the fallible
conversion results by `Except String _`.
-/

/-- The `DataType` enum of `src/types.ts`. -/
inductive DataType
  | Int8
  | UInt8
  | Int16
  | UInt16
  | Int32
  | UInt32
  | Float32
  | Float64
deriving DecidableEq

/-- The string value carried by each `DataType` enum member. -/
def DataType.name : DataType → String
  | .Int8 => "Int8"
  | .UInt8 => "UInt8"
  | .Int16 => "Int16"
  | .UInt16 => "UInt16"
  | .Int32 => "Int32"
  | .UInt32 => "UInt32"
  | .Float32 => "Float32"
  | .Float64 => "Float64"

/-- The `DataTypeDetail` record of `src/types.ts` (the numeric and flag
fields; `min`/`max` are exact rationals standing for the JS numbers). -/
structure DataTypeDetail where
  bits : Nat
  signed : Bool
  isFloat : Bool
  min : ℚ
  max : ℚ
  description : String
  exampleStr : String

/-- The `DATA_TYPE_DETAILS` table of `src/types.ts`.  `-3.4e38` is exactly
`-34·10^37` and `-1.8e308` exactly `-18·10^307`. -/
def DATA_TYPE_DETAILS : DataType → DataTypeDetail
  | .Int8 => ⟨8, true, false, -128, 127, "8-bit signed integer.", "11111111"⟩
  | .UInt8 => ⟨8, false, false, 0, 255, "8-bit unsigned integer.", "10000000"⟩
  | .Int16 => ⟨16, true, false, -32768, 32767, "16-bit signed integer.", "1000...0001"⟩
  | .UInt16 => ⟨16, false, false, 0, 65535, "16-bit unsigned integer.", "1111...1111"⟩
  | .Int32 => ⟨32, true, false, -2147483648, 2147483647, "32-bit signed integer.", "0111...1111"⟩
  | .UInt32 => ⟨32, false, false, 0, 4294967295, "32-bit unsigned integer.", "1000...0000"⟩
  | .Float32 => ⟨32, true, true, -34 * 10 ^ 37, 34 * 10 ^ 37,
      "32-bit single-precision float (IEEE 754).", "0 10000000 1001001..."⟩
  | .Float64 => ⟨64, true, true, -18 * 10 ^ 307, 18 * 10 ^ 307,
      "64-bit double-precision float (IEEE 754).", "0 100...000 1001..."⟩

deriving instance DecidableEq for Except

/-- Model of a JS `number`: a finite double (as an exact rational), NaN, or
an infinity.  Negative zero is identified with zero. -/
inductive JsNum
  | num (q : ℚ)
  | nan
  | posInf
  | negInf
deriving DecidableEq

/-- JS `Number.isInteger`: true exactly for finite values that are
mathematical integers. -/
def JsNum.isInteger : JsNum → Bool
  | .num q => q.den == 1
  | _ => false

/-- JS `<` against a finite bound: NaN compares false, `-Infinity` is below
every finite bound, `Infinity` above. -/
def JsNum.ltQ : JsNum → ℚ → Bool
  | .num q, r => decide (q < r)
  | .nan, _ => false
  | .posInf, _ => false
  | .negInf, _ => true

/-- JS `>` against a finite bound. -/
def JsNum.gtQ : JsNum → ℚ → Bool
  | .num q, r => decide (r < q)
  | .nan, _ => false
  | .posInf, _ => true
  | .negInf, _ => false

/-- The rational carried by a finite JS number (0 for the non-finite
values; only used on branches guarded by `isInteger`). -/
def JsNum.q : JsNum → ℚ
  | .num v => v
  | _ => 0

/-- A binary digit character. -/
def isBit (c : Char) : Bool := c == '0' || c == '1'

/-- The JS regex test `/^[01]+$/.test(s)`: nonempty and all characters
`'0'`/`'1'`. -/
def isBinaryString (s : String) : Bool := !s.data.isEmpty && s.data.all isBit

/-- Numeric value of one binary digit character. -/
def bitToNat (c : Char) : Nat := if c == '1' then 1 else 0

/-- JS `parseInt(s, 2)` on a string of `'0'`/`'1'` characters. -/
def parseBin (l : List Char) : Nat := l.foldl (fun a c => 2 * a + bitToNat c) 0

/-- Binary digits of `n`, most significant first, no leading zeros
(`[]` for 0).  Fuel-structured so that it evaluates by `decide`; `fuel ≥ n`
always suffices. -/
def natBitsAux : Nat → Nat → List Char
  | _, 0 => []
  | n, fuel + 1 =>
    if n == 0 then []
    else natBitsAux (n / 2) fuel ++ [if n % 2 == 1 then '1' else '0']

/-- JS `n.toString(2)` for a natural number. -/
def natToBin (n : Nat) : List Char := if n == 0 then ['0'] else natBitsAux n n

/-- Decimal digits of `n`, most significant first (`["0"]` for 0), as in JS
`String(n)` for a natural number. -/
def natDecAux : Nat → Nat → List Char
  | _, 0 => []
  | n, fuel + 1 =>
    if n == 0 then []
    else natDecAux (n / 10) fuel ++ [Char.ofNat (48 + n % 10)]

/-- JS `n.toString()` (base 10) for a natural number. -/
def natToDec (n : Nat) : List Char := if n == 0 then ['0'] else natDecAux n n

/-- JS `String.prototype.padStart(w, c)` on the character list of a string. -/
def padStart (l : List Char) (w : Nat) (c : Char) : List Char :=
  List.replicate (w - l.length) c ++ l

/-! ### IEEE-754 model (JS `DataView.setFloat32/64` and `getFloat32/64`,
big-endian, modelled bit-exactly; a finite JS number is the exact rational
`q.num / q.den`, and all rounding arithmetic is carried out exactly on that
integer numerator and denominator) -/

/-- Floor of the base-2 logarithm of a natural number `n ≥ 1`, fuel-structured
so that it evaluates by `decide`. -/
def natLog2Aux : Nat → Nat → Nat
  | _, 0 => 0
  | n, fuel + 1 => if n ≤ 1 then 0 else natLog2Aux (n / 2) fuel + 1

/-- Floor of the base-2 logarithm of `n` (0 for `n ≤ 1`). -/
def natLog2 (n : Nat) : Nat := natLog2Aux n n

/-- Smallest `k ≥ start` with `(a / d) * 2^k ≥ 1`, i.e. `a * 2^k ≥ d`,
searched with fuel. -/
def ratLog2NegAux (a d : Nat) : Nat → Nat → Nat
  | k, 0 => k
  | k, fuel + 1 => if d ≤ a * 2 ^ k then k else ratLog2NegAux a d (k + 1) fuel

/-- Floor of the base-2 logarithm of the positive rational `a / d`. -/
def ratLog2 (a d : Nat) : Int :=
  if d ≤ a then (natLog2 (a / d) : Int)
  else -(ratLog2NegAux a d 1 5000 : Int)

/-- Round the exact nonnegative rational `num / den` to the nearest natural
number, ties to even (the IEEE-754 default rounding used by JS float
conversion). -/
def roundHalfEvenDiv (num den : Nat) : Nat :=
  let q := num / den
  let r := num % den
  if 2 * r < den then q
  else if den < 2 * r then q + 1
  else if q % 2 == 0 then q else q + 1

/-- Multiply a rational by an integer power of two. -/
def mulPow2 (q : ℚ) (z : Int) : ℚ :=
  if 0 ≤ z then q * 2 ^ z.toNat else q / 2 ^ (-z).toNat

/-- Bit pattern (as a natural number below `2^(1+ebits+mbits)`) produced by
storing a JS number in an IEEE-754 binary interchange format with `ebits`
exponent bits, `mbits` mantissa bits and exponent bias `bias` — the model of
`DataView.setFloat32` (8/23/127) and `setFloat64` (11/52/1023), including
round-to-nearest-even, subnormals, and overflow to infinity.  The finite
value `q = q.num / q.den` is processed exactly via its numerator and
denominator. -/
def jsToFloatBits (ebits mbits bias : Nat) (x : JsNum) : Nat :=
  let infPat := (2 ^ ebits - 1) * 2 ^ mbits
  match x with
  | .nan => infPat + 2 ^ (mbits - 1)
  | .posInf => infPat
  | .negInf => 2 ^ (ebits + mbits) + infPat
  | .num q =>
    if q.num = 0 then 0
    else
      let s : Nat := if q.num < 0 then 1 else 0
      let a := q.num.natAbs
      let d := q.den
      let emin : Int := 1 - (bias : Int)
      let emax : Int := (2 ^ ebits : Int) - 2 - (bias : Int)
      let e1 : Int := max (ratLog2 a d) emin
      let u := ((mbits : Int) - e1).toNat
      let v := (e1 - (mbits : Int)).toNat
      let m : Nat := roundHalfEvenDiv (a * 2 ^ u) (d * 2 ^ v)
      let e2 : Int := if 2 ^ (mbits + 1) ≤ m then e1 + 1 else e1
      let m2 : Nat := if 2 ^ (mbits + 1) ≤ m then 2 ^ mbits else m
      if emax < e2 then s * 2 ^ (ebits + mbits) + infPat
      else if 2 ^ mbits ≤ m2 then
        s * 2 ^ (ebits + mbits) + (e2 + bias).toNat * 2 ^ mbits + (m2 - 2 ^ mbits)
      else
        s * 2 ^ (ebits + mbits) + m2

/-- JS number read back from an IEEE-754 bit pattern — the model of
`DataView.getFloat32`/`getFloat64` (big-endian byte assembly is done by the
caller). -/
def floatBitsToJs (ebits mbits bias : Nat) (pat : Nat) : JsNum :=
  let s := pat / 2 ^ (ebits + mbits) % 2
  let ef := pat / 2 ^ mbits % 2 ^ ebits
  let mf := pat % 2 ^ mbits
  if ef == 2 ^ ebits - 1 then
    if mf == 0 then (if s == 1 then .negInf else .posInf) else .nan
  else
    let mag : ℚ :=
      if ef == 0 then mulPow2 (mf : ℚ) (1 - (bias : Int) - (mbits : Int))
      else mulPow2 ((2 ^ mbits + mf : Nat) : ℚ) ((ef : Int) - (bias : Int) - (mbits : Int))
    .num (if s == 1 then -mag else mag)

/-! ### The conversion core (`src/services/converterService.ts`) -/

/-- Embeds `convertDecimalToBinary` of `src/services/converterService.ts`.
Integer layouts validate integrality and range and produce the
two's-complement bit string; float layouts write the IEEE-754 big-endian
byte pattern and render each byte as 8 bits.  (The JS `try` around
`setFloat32/64` can never throw for a `number` argument, so the float path
always succeeds.) -/
def convertDecimalToBinary (decimal : JsNum) (dataType : DataType) : Except String String :=
  let details := DATA_TYPE_DETAILS dataType
  if details.isFloat = false then
    if decimal.isInteger = false then
      .error "Only integers are allowed for this data type."
    else if decimal.ltQ details.min || decimal.gtQ details.max then
      .error ("Value out of range for " ++ dataType.name ++ ".")
    else
      let v : Int := (JsNum.q decimal).num
      let binary : List Char :=
        if details.signed && decide (v < 0) then natToBin (v + 2 ^ details.bits).toNat
        else natToBin v.toNat
      .ok (String.mk (padStart binary details.bits '0'))
  else
    let pat : Nat :=
      if dataType = DataType.Float32 then jsToFloatBits 8 23 127 decimal
      else jsToFloatBits 11 52 1023 decimal
    let nbytes := details.bits / 8
    .ok (String.mk (List.flatten ((List.range nbytes).map (fun i =>
      padStart (natToBin (pat / 2 ^ (8 * (nbytes - 1 - i)) % 256)) 8 '0'))))

/-- Embeds `convertBinaryToDecimal` of `src/services/converterService.ts`.
Validates the characters, rejects over-long strings, left-pads to the
layout width, then decodes as two's-complement integer or IEEE-754 float
(big-endian byte assembly). -/
def convertBinaryToDecimal (binary : String) (dataType : DataType) : Except String JsNum :=
  let details := DATA_TYPE_DETAILS dataType
  if isBinaryString binary = false then
    .error "Invalid binary string."
  else if details.bits < binary.length then
    .error ("Binary string exceeds " ++ String.mk (natToDec details.bits) ++ " bits for "
      ++ dataType.name ++ ".")
  else
    let paddedBinary := padStart binary.data details.bits '0'
    if details.isFloat = false then
      let value : Nat := parseBin paddedBinary
      if details.signed && (paddedBinary.head? == some '1') then
        .ok (.num ((value : ℚ) - 2 ^ details.bits))
      else
        .ok (.num (value : ℚ))
    else
      let nbytes := details.bits / 8
      let bytes := (List.range nbytes).map (fun i =>
        parseBin ((paddedBinary.drop (8 * i)).take 8))
      let pat := bytes.foldl (fun a b => a * 256 + b) 0
      if dataType = DataType.Float32 then .ok (floatBitsToJs 8 23 127 pat)
      else .ok (floatBitsToJs 11 52 1023 pat)

/-- Hex digit character for a nibble value, as JS
`n.toString(16).toUpperCase()` yields for `n < 16`. -/
def toHexChar (n : Nat) : Char :=
  if n < 10 then Char.ofNat (48 + n) else Char.ofNat (55 + n)

/-- The 4-characters-at-a-time loop of `convertBinaryToHex`
(`padded.substring(i, i + 4)` per iteration; a trailing group shorter than
4 characters — impossible after padding — is converted as-is, exactly as the
clamping `substring` would produce). -/
def chunkHex : List Char → List Char
  | [] => []
  | c1 :: c2 :: c3 :: c4 :: rest => toHexChar (parseBin [c1, c2, c3, c4]) :: chunkHex rest
  | l => [toHexChar (parseBin l)]

/-- Embeds `convertBinaryToHex` of `src/services/converterService.ts`:
empty result on invalid input, otherwise left-pad to a multiple of 4 and
map each 4-bit group to an uppercase hex digit. -/
def convertBinaryToHex (binary : String) : String :=
  if isBinaryString binary = false then ""
  else
    let remainder := binary.length % 4
    let padding := if remainder == 0 then 0 else 4 - remainder
    let padded := padStart binary.data (binary.length + padding) '0'
    String.mk (chunkHex padded)

/-- JS `\s` for the characters that can occur here. -/
def isWhitespaceChar (c : Char) : Bool :=
  c == ' ' || c == '\t' || c == '\n' || c == '\r' || c == '\x0b' || c == '\x0c'

/-- A hexadecimal digit character (either case), as matched by
`/^[0-9a-fA-F]*$/` per character. -/
def isHexDigit (c : Char) : Bool :=
  ('0' ≤ c && c ≤ '9') || ('a' ≤ c && c ≤ 'f') || ('A' ≤ c && c ≤ 'F')

/-- JS `parseInt(c, 16)` for a single hex digit character. -/
def hexVal (c : Char) : Nat :=
  if c ≤ '9' then c.toNat - 48 else if c ≤ 'F' then c.toNat - 55 else c.toNat - 87

/-- Embeds `convertHexToBinary` of `src/services/converterService.ts`:
strip whitespace, validate, then map each hex digit to 4 bits. -/
def convertHexToBinary (hex : String) : Except String String :=
  let sanitizedHex := hex.data.filter (fun c => !isWhitespaceChar c)
  if (sanitizedHex.all isHexDigit) = false then
    .error "Invalid hexadecimal string."
  else
    .ok (String.mk (List.flatten (sanitizedHex.map (fun c => padStart (natToBin (hexVal c)) 4 '0'))))

/-! ### The precision display formatter
(`formatDecimalForDisplay` of the App revision in `src/unnamed/part_000`,
lines 283–297 — the variant with the exponential fallback, which §4.4 of the
specification adopts; it relies on the JS built-ins `Number.prototype.toFixed`
and `Number.prototype.toExponential`, modelled here after ECMA-262 with the
rounding arithmetic carried out exactly on the numerator and denominator). -/

/-- Round the exact nonnegative rational `num / den` to the nearest natural
number, ties upward — the rounding ECMA-262 prescribes for `toFixed` and
`toExponential` after the sign has been taken out. -/
def roundHalfUpDiv (num den : Nat) : Nat := (2 * num + den) / (2 * den)

/-- The natural number that JS `toFixed(p)` rounds `|q| * 10^p` to
(ECMA-262 takes the sign out first and picks the larger candidate on
ties). -/
def toFixedNat (q : ℚ) (p : Nat) : Nat := roundHalfUpDiv (q.num.natAbs * 10 ^ p) q.den

/-- JS `Number.prototype.toFixed(p)` for a finite value. -/
def toFixedStr (q : ℚ) (p : Nat) : String :=
  let n := toFixedNat q p
  let digits := padStart (natToDec n) (p + 1) '0'
  let ip := digits.take (digits.length - p)
  let fp := digits.drop (digits.length - p)
  (if q.num < 0 then "-" else "") ++ String.mk ip ++
    (if p == 0 then "" else "." ++ String.mk fp)

/-- Floor of the base-10 logarithm of a natural number `n ≥ 1`,
fuel-structured. -/
def natLog10Aux : Nat → Nat → Nat
  | _, 0 => 0
  | n, fuel + 1 => if n ≤ 9 then 0 else natLog10Aux (n / 10) fuel + 1

/-- Smallest `k` with `(a / d) * 10^k ≥ 1`, searched with fuel. -/
def ratLog10NegAux (a d : Nat) : Nat → Nat → Nat
  | k, 0 => k
  | k, fuel + 1 => if d ≤ a * 10 ^ k then k else ratLog10NegAux a d (k + 1) fuel

/-- Floor of the base-10 logarithm of the positive rational `a / d`. -/
def ratLog10 (a d : Nat) : Int :=
  if d ≤ a then (natLog10Aux (a / d) (a / d) : Int)
  else -(ratLog10NegAux a d 1 5000 : Int)

/-- JS `Number.prototype.toExponential(p)` for a finite value: one leading
digit, `p` fractional digits, and a signed decimal exponent.  ECMA-262
rounds the scaled significand `|q| * 10^(p - e)` to the nearest integer in
`[10^p, 10^(p+1))`, ties picking the larger value; the scaling is carried
out exactly on the numerator and denominator. -/
def toExponentialStr (q : ℚ) (p : Nat) : String :=
  if q.num = 0 then
    "0" ++ (if p == 0 then "" else "." ++ String.mk (List.replicate p '0')) ++ "e+0"
  else
    let a := q.num.natAbs
    let d := q.den
    let e : Int := ratLog10 a d
    let u := ((p : Int) - e).toNat
    let v := (e - (p : Int)).toNat
    let n0 : Nat := roundHalfUpDiv (a * 10 ^ u) (d * 10 ^ v)
    let n : Nat := if 10 ^ (p + 1) ≤ n0 then 10 ^ p else n0
    let e2 : Int := if 10 ^ (p + 1) ≤ n0 then e + 1 else e
    let ds := padStart (natToDec n) (p + 1) '0'
    (if q.num < 0 then "-" else "") ++ String.mk (ds.take 1) ++
      (if p == 0 then "" else "." ++ String.mk (ds.drop 1)) ++
      "e" ++ (if e2 < 0 then "-" else "+") ++ String.mk (natToDec e2.natAbs)

/-- Embeds `formatDecimalForDisplay` of the App revision in
`src/unnamed/part_000` (lines 283–297): fixed-point rendering at the given
precision, falling back to exponential notation when a nonzero value would
round to zero (`num !== 0 && parseFloat(fixed) === 0`), and rendering
non-finite values as their JS string forms. -/
def formatDecimalForDisplay (num : JsNum) (precision : Nat) : String :=
  match num with
  | .nan => "NaN"
  | .posInf => "Infinity"
  | .negInf => "-Infinity"
  | .num q =>
    let fixed := toFixedStr q precision
    if decide (¬q.num = 0) && (toFixedNat q precision == 0) then
      toExponentialStr q precision
    else fixed

/-- Whether a conversion result is the success side of the union. -/
def exceptIsOk {a : Type} : Except String a → Bool
  | .ok _ => true
  | .error _ => false

/-! ### Basic facts about the bit-string primitives -/

theorem parseBin_go (l : List Char) (acc : Nat) :
    l.foldl (fun a c => 2 * a + bitToNat c) acc = acc * 2 ^ l.length + parseBin l := by
  induction l generalizing acc with
  | nil => simp [parseBin]
  | cons c t ih =>
    have h1 := ih (2 * acc + bitToNat c)
    have h2 := ih (bitToNat c)
    simp only [List.foldl_cons, parseBin, List.length_cons, mul_zero, zero_add] at h1 h2 ⊢
    rw [h1, h2]
    ring

theorem parseBin_cons (c : Char) (l : List Char) :
    parseBin (c :: l) = bitToNat c * 2 ^ l.length + parseBin l := by
  simpa [parseBin] using parseBin_go l (bitToNat c)

theorem parseBin_append (a b : List Char) :
    parseBin (a ++ b) = parseBin a * 2 ^ b.length + parseBin b := by
  simpa [parseBin] using parseBin_go b (parseBin a)

theorem parseBin_replicate_zero (m : Nat) : parseBin (List.replicate m '0') = 0 := by
  induction m with
  | zero => rfl
  | succ k ih => simp [List.replicate_succ, parseBin_cons, ih, bitToNat]

theorem parseBin_padStart_zero (l : List Char) (w : Nat) :
    parseBin (padStart l w '0') = parseBin l := by
  simp [padStart, parseBin_append, parseBin_replicate_zero]

theorem parseBin_lt (l : List Char) (h : l.all isBit) : parseBin l < 2 ^ l.length := by
  induction l with
  | nil => simp [parseBin]
  | cons c t ih =>
    simp only [List.all_cons, Bool.and_eq_true] at h
    have hb : bitToNat c ≤ 1 := by
      unfold bitToNat; split <;> omega
    have ht := ih h.2
    rw [parseBin_cons, List.length_cons, pow_succ]
    have hmul : bitToNat c * 2 ^ t.length ≤ 2 ^ t.length := by
      calc bitToNat c * 2 ^ t.length ≤ 1 * 2 ^ t.length := Nat.mul_le_mul_right _ hb
        _ = 2 ^ t.length := one_mul _
    omega

theorem natBitsAux_zero (fuel : Nat) : natBitsAux 0 fuel = [] := by
  cases fuel <;> simp [natBitsAux]

theorem natBitsAux_parse (fuel : Nat) : ∀ n, n ≤ fuel → parseBin (natBitsAux n fuel) = n := by
  induction fuel with
  | zero =>
    intro n hn
    interval_cases n
    rfl
  | succ f ih =>
    intro n hn
    by_cases h0 : n = 0
    · simp [natBitsAux, h0, parseBin]
    · have hrec : n / 2 ≤ f := by omega
      rw [natBitsAux, if_neg (by simpa using h0), parseBin_append, ih _ hrec]
      rcases Nat.mod_two_eq_zero_or_one n with h2 | h2 <;>
        simp [h2, parseBin_cons, parseBin, bitToNat] <;> omega

theorem natBitsAux_length_le (fuel : Nat) :
    ∀ n k, n ≤ fuel → n < 2 ^ k → (natBitsAux n fuel).length ≤ k := by
  induction fuel with
  | zero =>
    intro n k hn _
    interval_cases n
    simp [natBitsAux]
  | succ f ih =>
    intro n k hn hk
    by_cases h0 : n = 0
    · simp [natBitsAux, h0]
    · have hn1 : 1 ≤ n := by omega
      have hkpos : 0 < k := by
        by_contra h
        have : k = 0 := by omega
        subst this
        simp at hk
        omega
      obtain ⟨j, rfl⟩ : ∃ j, k = j + 1 := ⟨k - 1, by omega⟩
      have hhalf : n / 2 < 2 ^ j := by
        have : 2 ^ (j + 1) = 2 * 2 ^ j := by ring
        omega
      rw [natBitsAux, if_neg (by simpa using h0)]
      have := ih (n / 2) j (by omega) hhalf
      simp [List.length_append]
      omega

theorem natBitsAux_length_ge (fuel : Nat) :
    ∀ n k, n ≤ fuel → 2 ^ k ≤ n → k + 1 ≤ (natBitsAux n fuel).length := by
  induction fuel with
  | zero =>
    intro n k hn hk
    have := Nat.one_le_two_pow (n := k)
    omega
  | succ f ih =>
    intro n k hn hk
    have hn1 : 1 ≤ n := le_trans Nat.one_le_two_pow hk
    have h0 : ¬n = 0 := by omega
    rw [natBitsAux, if_neg (by simpa using h0)]
    cases k with
    | zero => simp [List.length_append]
    | succ j =>
      have hhalf : 2 ^ j ≤ n / 2 := by
        have : 2 ^ (j + 1) = 2 * 2 ^ j := by ring
        omega
      have := ih (n / 2) j (by omega) hhalf
      simp [List.length_append]
      omega

theorem natBitsAux_ne_nil (fuel n : Nat) (hn : n ≤ fuel) (h1 : 1 ≤ n) :
    natBitsAux n fuel ≠ [] := by
  have := natBitsAux_length_ge fuel n 0 hn (by simpa using h1)
  intro h
  rw [h] at this
  simp at this

theorem natBitsAux_head (fuel : Nat) :
    ∀ n, n ≤ fuel → 1 ≤ n → (natBitsAux n fuel).head? = some '1' := by
  induction fuel with
  | zero => intro n hn h1; omega
  | succ f ih =>
    intro n hn h1
    have h0 : ¬n = 0 := by omega
    rw [natBitsAux, if_neg (by simpa using h0)]
    by_cases hh : n / 2 = 0
    · have : n = 1 := by omega
      subst this
      simp [hh, natBitsAux_zero]
    · have hne := natBitsAux_ne_nil f (n / 2) (by omega) (by omega)
      obtain ⟨a, t, he⟩ : ∃ a t, natBitsAux (n / 2) f = a :: t := by
        cases hx : natBitsAux (n / 2) f with
        | nil => exact absurd hx hne
        | cons a t => exact ⟨a, t, rfl⟩
      have := ih (n / 2) (by omega) (by omega)
      rw [he] at this ⊢
      simpa using this

theorem natBitsAux_all_isBit (fuel : Nat) :
    ∀ n, (natBitsAux n fuel).all isBit := by
  induction fuel with
  | zero => intro n; simp [natBitsAux]
  | succ f ih =>
    intro n
    by_cases h0 : n = 0
    · simp [natBitsAux, h0]
    · rw [natBitsAux, if_neg (by simpa using h0)]
      rw [List.all_append, ih (n / 2), Bool.true_and]
      rcases Nat.mod_two_eq_zero_or_one n with h2 | h2 <;> simp [h2, isBit]

theorem natToBin_parse (n : Nat) : parseBin (natToBin n) = n := by
  unfold natToBin
  by_cases h0 : n = 0
  · simp [h0, parseBin_cons, parseBin, bitToNat]
  · rw [if_neg (by simpa using h0)]
    exact natBitsAux_parse n n le_rfl

theorem natToBin_length_le (n k : Nat) (hk : n < 2 ^ k) (h1 : 1 ≤ k) :
    (natToBin n).length ≤ k := by
  unfold natToBin
  by_cases h0 : n = 0
  · simp [h0]; omega
  · rw [if_neg (by simpa using h0)]
    exact natBitsAux_length_le n n k le_rfl hk

theorem natToBin_all_isBit (n : Nat) : (natToBin n).all isBit := by
  unfold natToBin
  by_cases h0 : n = 0
  · simp [h0, isBit]
  · rw [if_neg (by simpa using h0)]
    exact natBitsAux_all_isBit n n

theorem padStart_length (l : List Char) (w : Nat) (c : Char) :
    (padStart l w c).length = max w l.length := by
  simp [padStart]
  omega

theorem padStart_of_ge (l : List Char) (w : Nat) (c : Char) (h : l.length ≥ w) :
    padStart l w c = l := by
  simp [padStart, Nat.sub_eq_zero_of_le h]

theorem padStart_all_isBit (l : List Char) (w : Nat) (h : l.all isBit) :
    (padStart l w '0').all isBit := by
  simp only [padStart, List.all_append, Bool.and_eq_true]
  exact ⟨by simp [isBit], h⟩


/-! ### Evaluation lemmas for the integer paths -/

theorem data_mk (l : List Char) : (String.mk l).data = l := rfl

theorem length_mk (l : List Char) : (String.mk l).length = l.length := rfl

theorem decode_int_eval (dt : DataType) (w : Nat) (sg : Bool)
    (hb : (DATA_TYPE_DETAILS dt).bits = w)
    (hs : (DATA_TYPE_DETAILS dt).signed = sg)
    (hf : (DATA_TYPE_DETAILS dt).isFloat = false)
    (s : List Char) (hall : s.all isBit) (hlen : s.length = w) (hw : 0 < w) :
    convertBinaryToDecimal (String.mk s) dt =
      .ok (.num (if sg && (s.head? == some '1') then (parseBin s : ℚ) - 2 ^ w
        else (parseBin s : ℚ))) := by
  cases s with
  | nil => simp at hlen; omega
  | cons c t =>
    have hbin : isBinaryString (String.mk (c :: t)) = true := by
      simp [isBinaryString, data_mk, hall]
    have hpad : padStart (c :: t) w '0' = c :: t :=
      padStart_of_ge _ _ _ (le_of_eq hlen.symm)
    simp only [convertBinaryToDecimal, hb, hs, hf, hbin, data_mk, length_mk, hlen, hpad,
      lt_irrefl, if_false, Bool.false_eq_true, if_true]
    rw [if_neg (by simp : ¬(true = false))]
    split <;> simp

theorem encode_int_eval (dt : DataType) (w : Nat) (sg : Bool)
    (hb : (DATA_TYPE_DETAILS dt).bits = w)
    (hs : (DATA_TYPE_DETAILS dt).signed = sg)
    (hf : (DATA_TYPE_DETAILS dt).isFloat = false)
    (v : ℤ)
    (hmin : (DATA_TYPE_DETAILS dt).min ≤ (v : ℚ))
    (hmax : (v : ℚ) ≤ (DATA_TYPE_DETAILS dt).max) :
    convertDecimalToBinary (.num (v : ℚ)) dt =
      .ok (String.mk (padStart
        (if sg && decide (v < 0) then natToBin (v + 2 ^ w).toNat else natToBin v.toNat)
        w '0')) := by
  have hint : (JsNum.num (v : ℚ)).isInteger = true := by
    simp [JsNum.isInteger, Rat.den_intCast]
  have hlt : (JsNum.num (v : ℚ)).ltQ (DATA_TYPE_DETAILS dt).min = false := by
    simp [JsNum.ltQ]; exact hmin
  have hgt : (JsNum.num (v : ℚ)).gtQ (DATA_TYPE_DETAILS dt).max = false := by
    simp [JsNum.gtQ]; exact hmax
  have hnum : (JsNum.q (.num (v : ℚ))).num = v := by
    simp [JsNum.q, Rat.num_intCast]
  simp only [convertDecimalToBinary, hb, hs, hf, hint, hlt, hgt, hnum,
    Bool.false_eq_true, if_false, Bool.or_self, if_true]
  simp

theorem exceptBind_ok {a b : Type} (x : a) (f : a → Except String b) :
    (Except.ok x : Except String a).bind f = f x := rfl

theorem natToBin_length_eq (n w : Nat) (hlo : 2 ^ (w - 1) ≤ n) (hhi : n < 2 ^ w)
    (hw : 0 < w) : (natToBin n).length = w := by
  have hn0 : n ≠ 0 := by
    have := Nat.one_le_two_pow (n := w - 1)
    omega
  unfold natToBin
  rw [if_neg (by simpa using hn0)]
  have h1 := natBitsAux_length_le n n w le_rfl hhi
  have h2 := natBitsAux_length_ge n n (w - 1) le_rfl hlo
  omega

theorem roundtrip_int_nonneg (dt : DataType) (w : Nat) (sg : Bool)
    (hb : (DATA_TYPE_DETAILS dt).bits = w)
    (hs : (DATA_TYPE_DETAILS dt).signed = sg)
    (hf : (DATA_TYPE_DETAILS dt).isFloat = false)
    (hw : 2 ≤ w) (v : ℤ)
    (hmin : (DATA_TYPE_DETAILS dt).min ≤ (v : ℚ))
    (hmax : (v : ℚ) ≤ (DATA_TYPE_DETAILS dt).max)
    (h0 : 0 ≤ v) (hv : v < 2 ^ (if sg then w - 1 else w)) :
    (convertDecimalToBinary (.num (v : ℚ)) dt).bind (fun s => convertBinaryToDecimal s dt) =
      .ok (.num (v : ℚ)) := by
  have hneg : decide (v < 0) = false := by simp; omega
  rw [encode_int_eval dt w sg hb hs hf v hmin hmax]
  rw [show (if sg && decide (v < 0) then natToBin (v + 2 ^ w).toNat else natToBin v.toNat)
      = natToBin v.toNat by rw [hneg]; simp]
  set n := v.toNat with hn
  have hnv : (n : ℤ) = v := Int.toNat_of_nonneg h0
  have hnlt : n < 2 ^ (if sg then w - 1 else w) := by
    have : ((2 : ℤ) ^ (if sg then w - 1 else w)) = ((2 ^ (if sg then w - 1 else w) : ℕ) : ℤ) := by
      push_cast; rfl
    omega
  have hlen_le : (natToBin n).length ≤ (if sg then w - 1 else w) := by
    refine natToBin_length_le n _ hnlt ?_
    cases sg <;> simp <;> omega
  have hlen_le_w : (natToBin n).length ≤ w := by
    cases sg <;> simp at hlen_le <;> omega
  have hslen : (padStart (natToBin n) w '0').length = w := by
    rw [padStart_length]; omega
  have hsall : (padStart (natToBin n) w '0').all isBit :=
    padStart_all_isBit _ _ (natToBin_all_isBit n)
  rw [exceptBind_ok]
  rw [decode_int_eval dt w sg hb hs hf _ hsall hslen (by omega)]
  have hparse : parseBin (padStart (natToBin n) w '0') = n := by
    rw [parseBin_padStart_zero, natToBin_parse]
  have hcond : (sg && ((padStart (natToBin n) w '0').head? == some '1')) = false := by
    cases sg with
    | false => simp
    | true =>
      simp only [Bool.true_and]
      simp only [if_true] at hlen_le
      have hpadpos : 0 < w - (natToBin n).length := by omega
      obtain ⟨m, hm⟩ : ∃ m, w - (natToBin n).length = m + 1 := ⟨_, (Nat.succ_pred_eq_of_pos hpadpos).symm⟩
      simp [padStart, hm, List.replicate_succ]
  rw [hcond]
  simp only [Bool.false_eq_true, if_false, hparse]
  congr 1
  congr 1
  exact_mod_cast congrArg (fun z => ((z : ℤ) : ℚ)) hnv

theorem roundtrip_int_neg (dt : DataType) (w : Nat)
    (hb : (DATA_TYPE_DETAILS dt).bits = w)
    (hs : (DATA_TYPE_DETAILS dt).signed = true)
    (hf : (DATA_TYPE_DETAILS dt).isFloat = false)
    (hw : 2 ≤ w) (v : ℤ)
    (hmin : (DATA_TYPE_DETAILS dt).min ≤ (v : ℚ))
    (hmax : (v : ℚ) ≤ (DATA_TYPE_DETAILS dt).max)
    (hneg : v < 0) (hv : -(2 ^ (w - 1) : ℤ) ≤ v) :
    (convertDecimalToBinary (.num (v : ℚ)) dt).bind (fun s => convertBinaryToDecimal s dt) =
      .ok (.num (v : ℚ)) := by
  rw [encode_int_eval dt w true hb hs hf v hmin hmax]
  rw [show (if true && decide (v < 0) then natToBin (v + 2 ^ w).toNat else natToBin v.toNat)
      = natToBin (v + 2 ^ w).toNat by simp [hneg]]
  set n := (v + 2 ^ w).toNat with hn
  have hpow : ((2 : ℤ) ^ w) = ((2 ^ w : ℕ) : ℤ) := by push_cast; rfl
  have hpow1 : ((2 : ℤ) ^ (w - 1)) = ((2 ^ (w - 1) : ℕ) : ℤ) := by push_cast; rfl
  have hsplit : (2 : ℤ) ^ w = 2 ^ (w - 1) + 2 ^ (w - 1) := by
    conv_lhs => rw [show w = (w - 1) + 1 by omega]
    rw [pow_succ]
    ring
  have hnn : (0 : ℤ) ≤ v + 2 ^ w := by omega
  have hnv : (n : ℤ) = v + 2 ^ w := Int.toNat_of_nonneg hnn
  have hlo : 2 ^ (w - 1) ≤ n := by omega
  have hhi : n < 2 ^ w := by omega
  have hlen : (natToBin n).length = w := natToBin_length_eq n w hlo hhi (by omega)
  have hpad : padStart (natToBin n) w '0' = natToBin n :=
    padStart_of_ge _ _ _ (le_of_eq hlen.symm)
  rw [hpad, exceptBind_ok]
  rw [decode_int_eval dt w true hb hs hf _ (natToBin_all_isBit n) hlen (by omega)]
  have hn0 : n ≠ 0 := by
    have := Nat.one_le_two_pow (n := w - 1)
    omega
  have hhead : (natToBin n).head? = some '1' := by
    unfold natToBin
    rw [if_neg (by simpa using hn0)]
    exact natBitsAux_head n n le_rfl (by omega)
  rw [hhead]
  simp only [Bool.true_and, beq_self_eq_true, if_true, natToBin_parse]
  congr 2
  have : ((n : ℤ) : ℚ) = (v : ℚ) + ((2 ^ w : ℕ) : ℚ) := by
    rw [hnv]
    push_cast
    ring
  push_cast at this ⊢
  linarith [this]

theorem bits_pos (dt : DataType) : 0 < (DATA_TYPE_DETAILS dt).bits := by
  cases dt <;> norm_num [DATA_TYPE_DETAILS]

theorem decode_int_short (dt : DataType) (w : Nat) (sg : Bool)
    (hb : (DATA_TYPE_DETAILS dt).bits = w)
    (hs : (DATA_TYPE_DETAILS dt).signed = sg)
    (hf : (DATA_TYPE_DETAILS dt).isFloat = false)
    (s : List Char) (hne : s ≠ []) (hall : s.all isBit) (hlen : s.length ≤ w) :
    convertBinaryToDecimal (String.mk s) dt =
      .ok (.num (if sg && ((padStart s w '0').head? == some '1')
        then (parseBin s : ℚ) - 2 ^ w else (parseBin s : ℚ))) := by
  cases s with
  | nil => exact absurd rfl hne
  | cons c t =>
    have hbin : isBinaryString (String.mk (c :: t)) = true := by
      simp [isBinaryString, data_mk, hall]
    simp only [convertBinaryToDecimal, hb, hs, hf, hbin, data_mk, length_mk,
      parseBin_padStart_zero]
    rw [if_neg (by simp : ¬(true = false))]
    rw [if_neg (by omega : ¬(w < (c :: t).length))]
    rw [if_pos trivial]
    split <;> simp

theorem encode_ok_width (dt : DataType) (w : Nat)
    (hb : (DATA_TYPE_DETAILS dt).bits = w)
    (hf : (DATA_TYPE_DETAILS dt).isFloat = false) (hw : 1 ≤ w)
    (hmaxb : (DATA_TYPE_DETAILS dt).max < ((2 ^ w : ℕ) : ℚ))
    (x : JsNum) (s : String) (h : convertDecimalToBinary x dt = .ok s) :
    s.length = w ∧ s.data.all isBit = true := by
  simp only [convertDecimalToBinary, hb, hf] at h
  rw [if_pos trivial] at h
  by_cases hint : x.isInteger = false
  · rw [if_pos hint] at h
    exact absurd h (by simp)
  · rw [if_neg hint] at h
    by_cases hrange : (x.ltQ (DATA_TYPE_DETAILS dt).min || x.gtQ (DATA_TYPE_DETAILS dt).max) = true
    · rw [if_pos hrange] at h
      exact absurd h (by simp)
    · rw [if_neg hrange] at h
      obtain ⟨q, rfl⟩ : ∃ q, x = .num q := by
        cases x with
        | num q => exact ⟨q, rfl⟩
        | nan => simp [JsNum.isInteger] at hint
        | posInf => simp [JsNum.isInteger] at hint
        | negInf => simp [JsNum.isInteger] at hint
      have hq1 : q.den = 1 := by
        simpa [JsNum.isInteger] using hint
      simp only [Bool.or_eq_true, not_or] at hrange
      have hqle : q ≤ (DATA_TYPE_DETAILS dt).max := by
        have := hrange.2
        simp [JsNum.gtQ] at this
        exact this
      set v : ℤ := (JsNum.q (.num q)).num with hv
      have hqv : ((v : ℚ)) = q := by
        rw [hv]
        simp only [JsNum.q]
        conv_rhs => rw [← Rat.num_div_den q]
        rw [hq1]
        norm_num
      have hvlt : v < ((2 ^ w : ℕ) : ℤ) := by
        have h1 : ((v : ℚ)) < ((2 ^ w : ℕ) : ℚ) := by
          rw [hqv]
          exact lt_of_le_of_lt hqle hmaxb
        exact_mod_cast h1
      have h2w : ((2 ^ w : ℕ) : ℤ) = 2 ^ w := by push_cast; rfl
      have hBpos : 1 ≤ 2 ^ w := Nat.one_le_two_pow
      have hbound : ∀ n : Nat, n < 2 ^ w → (String.mk (padStart (natToBin n) w '0')).length = w ∧
          (String.mk (padStart (natToBin n) w '0')).data.all isBit = true := by
        intro n hn
        refine ⟨?_, ?_⟩
        · rw [length_mk, padStart_length]
          have := natToBin_length_le n w hn hw
          omega
        · rw [data_mk]
          exact padStart_all_isBit _ _ (natToBin_all_isBit n)
      split at h
      · obtain rfl : String.mk (padStart (natToBin (v + 2 ^ w).toNat) w '0') = s :=
          by simpa using h
        refine hbound _ ?_
        have hneg : v < 0 := by
          rename_i hcond
          simp only [Bool.and_eq_true, decide_eq_true_eq] at hcond
          exact hcond.2
        omega
      · obtain rfl : String.mk (padStart (natToBin v.toNat) w '0') = s := by simpa using h
        refine hbound _ ?_
        omega

theorem join_const_length (L : List (List Char)) (k : Nat) (h : ∀ l ∈ L, l.length = k) :
    L.flatten.length = k * L.length := by
  induction L with
  | nil => simp
  | cons a t ih =>
    have ha : a.length = k := h a (by simp)
    have ht := ih (fun l hl => h l (by simp [hl]))
    simp only [List.flatten_cons, List.length_append, List.length_cons, ha, ht]
    ring

theorem join_all_isBit (L : List (List Char)) (h : ∀ l ∈ L, l.all isBit = true) :
    L.flatten.all isBit = true := by
  induction L with
  | nil => simp
  | cons a t ih =>
    have ha := h a (by simp)
    have ht := ih (fun l hl => h l (by simp [hl]))
    simp [List.flatten_cons, List.all_append, ha, ht]

theorem byte_chunk_length (b : Nat) (hb : b < 256) :
    (padStart (natToBin b) 8 '0').length = 8 := by
  have := natToBin_length_le b 8 (by omega : b < 2 ^ 8) (by omega)
  rw [padStart_length]
  omega

theorem encode_float_string (pat k : Nat) :
    (String.mk (List.flatten ((List.range k).map (fun i =>
      padStart (natToBin (pat / 2 ^ (8 * (k - 1 - i)) % 256)) 8 '0')))).length = 8 * k ∧
    (String.mk (List.flatten ((List.range k).map (fun i =>
      padStart (natToBin (pat / 2 ^ (8 * (k - 1 - i)) % 256)) 8 '0')))).data.all isBit = true := by
  have hmem : ∀ l ∈ (List.range k).map (fun i =>
      padStart (natToBin (pat / 2 ^ (8 * (k - 1 - i)) % 256)) 8 '0'),
      l.length = 8 ∧ l.all isBit = true := by
    intro l hl
    rcases List.mem_map.mp hl with ⟨i, _, rfl⟩
    refine ⟨byte_chunk_length _ (Nat.mod_lt _ (by omega)), ?_⟩
    exact padStart_all_isBit _ _ (natToBin_all_isBit _)
  constructor
  · rw [length_mk, join_const_length _ 8 (fun l hl => (hmem l hl).1), List.length_map,
      List.length_range]
  · rw [data_mk]
    exact join_all_isBit _ (fun l hl => (hmem l hl).2)

theorem roundtrip_signed (dt : DataType) (w : Nat)
    (hb : (DATA_TYPE_DETAILS dt).bits = w)
    (hs : (DATA_TYPE_DETAILS dt).signed = true)
    (hf : (DATA_TYPE_DETAILS dt).isFloat = false) (hw : 2 ≤ w)
    (hminv : (DATA_TYPE_DETAILS dt).min = -((2 : ℚ) ^ (w - 1)))
    (hmaxv : (DATA_TYPE_DETAILS dt).max = (2 : ℚ) ^ (w - 1) - 1)
    (v : ℤ)
    (hmin : (DATA_TYPE_DETAILS dt).min ≤ (v : ℚ))
    (hmax : (v : ℚ) ≤ (DATA_TYPE_DETAILS dt).max) :
    (convertDecimalToBinary (.num (v : ℚ)) dt).bind (fun s => convertBinaryToDecimal s dt) =
      .ok (.num (v : ℚ)) := by
  have hminz : -((2 : ℤ) ^ (w - 1)) ≤ v := by
    rw [hminv] at hmin
    exact_mod_cast hmin
  have hmaxz : v ≤ (2 : ℤ) ^ (w - 1) - 1 := by
    rw [hmaxv] at hmax
    exact_mod_cast hmax
  rcases le_or_lt 0 v with h0 | h0
  · refine roundtrip_int_nonneg dt w true hb hs hf hw v hmin hmax h0 ?_
    simp only [if_true]
    omega
  · exact roundtrip_int_neg dt w hb hs hf hw v hmin hmax h0 hminz

theorem roundtrip_unsigned (dt : DataType) (w : Nat)
    (hb : (DATA_TYPE_DETAILS dt).bits = w)
    (hs : (DATA_TYPE_DETAILS dt).signed = false)
    (hf : (DATA_TYPE_DETAILS dt).isFloat = false) (hw : 2 ≤ w)
    (hminv : (DATA_TYPE_DETAILS dt).min = 0)
    (hmaxv : (DATA_TYPE_DETAILS dt).max = (2 : ℚ) ^ w - 1)
    (v : ℤ)
    (hmin : (DATA_TYPE_DETAILS dt).min ≤ (v : ℚ))
    (hmax : (v : ℚ) ≤ (DATA_TYPE_DETAILS dt).max) :
    (convertDecimalToBinary (.num (v : ℚ)) dt).bind (fun s => convertBinaryToDecimal s dt) =
      .ok (.num (v : ℚ)) := by
  have h0 : 0 ≤ v := by
    rw [hminv] at hmin
    exact_mod_cast hmin
  have hmaxz : v ≤ (2 : ℤ) ^ w - 1 := by
    rw [hmaxv] at hmax
    exact_mod_cast hmax
  refine roundtrip_int_nonneg dt w false hb hs hf hw v hmin hmax h0 ?_
  simp only [Bool.false_eq_true, if_false]
  omega

theorem encode_float_width (dt : DataType)
    (hf : (DATA_TYPE_DETAILS dt).isFloat = true)
    (hdiv : 8 * ((DATA_TYPE_DETAILS dt).bits / 8) = (DATA_TYPE_DETAILS dt).bits)
    (x : JsNum) (s : String) (h : convertDecimalToBinary x dt = .ok s) :
    s.length = (DATA_TYPE_DETAILS dt).bits ∧ s.data.all isBit = true := by
  simp only [convertDecimalToBinary] at h
  rw [if_neg (by simp [hf])] at h
  simp only [Except.ok.injEq] at h
  subst h
  have hw := encode_float_string
    (if dt = DataType.Float32 then jsToFloatBits 8 23 127 x else jsToFloatBits 11 52 1023 x)
    ((DATA_TYPE_DETAILS dt).bits / 8)
  exact ⟨by rw [hw.1]; exact hdiv, hw.2⟩

/-! ### The claims -/

/-- C2: for every integer layout L and every mathematical integer v with
`L.min ≤ v ≤ L.max`, encoding v and decoding the resulting bit string under
the same layout yields v back: `decode(encode(v, L), L) == v`. -/
theorem C2_int_roundtrip (dt : DataType) (hf : (DATA_TYPE_DETAILS dt).isFloat = false)
    (v : ℤ)
    (hmin : (DATA_TYPE_DETAILS dt).min ≤ (v : ℚ))
    (hmax : (v : ℚ) ≤ (DATA_TYPE_DETAILS dt).max) :
    (convertDecimalToBinary (.num (v : ℚ)) dt).bind (fun s => convertBinaryToDecimal s dt) =
      .ok (.num (v : ℚ)) := by
  cases dt with
  | Float32 => simp [DATA_TYPE_DETAILS] at hf
  | Float64 => simp [DATA_TYPE_DETAILS] at hf
  | Int8 =>
    exact roundtrip_signed DataType.Int8 8 rfl rfl rfl (by norm_num)
      (by norm_num [DATA_TYPE_DETAILS]) (by norm_num [DATA_TYPE_DETAILS]) v hmin hmax
  | Int16 =>
    exact roundtrip_signed DataType.Int16 16 rfl rfl rfl (by norm_num)
      (by norm_num [DATA_TYPE_DETAILS]) (by norm_num [DATA_TYPE_DETAILS]) v hmin hmax
  | Int32 =>
    exact roundtrip_signed DataType.Int32 32 rfl rfl rfl (by norm_num)
      (by norm_num [DATA_TYPE_DETAILS]) (by norm_num [DATA_TYPE_DETAILS]) v hmin hmax
  | UInt8 =>
    exact roundtrip_unsigned DataType.UInt8 8 rfl rfl rfl (by norm_num)
      (by norm_num [DATA_TYPE_DETAILS]) (by norm_num [DATA_TYPE_DETAILS]) v hmin hmax
  | UInt16 =>
    exact roundtrip_unsigned DataType.UInt16 16 rfl rfl rfl (by norm_num)
      (by norm_num [DATA_TYPE_DETAILS]) (by norm_num [DATA_TYPE_DETAILS]) v hmin hmax
  | UInt32 =>
    exact roundtrip_unsigned DataType.UInt32 32 rfl rfl rfl (by norm_num)
      (by norm_num [DATA_TYPE_DETAILS]) (by norm_num [DATA_TYPE_DETAILS]) v hmin hmax

/-- Witness for C2 at the concrete input v = -1, layout Int8. -/
theorem C2_int_roundtrip_witness :
    (convertDecimalToBinary (.num ((-1 : ℤ) : ℚ)) .Int8).bind
      (fun s => convertBinaryToDecimal s .Int8) = .ok (.num ((-1 : ℤ) : ℚ)) :=
  C2_int_roundtrip .Int8 rfl (-1) (by norm_num [DATA_TYPE_DETAILS])
    (by norm_num [DATA_TYPE_DETAILS])

/-- C3: for every integer layout and every full-width bit string, decode
parses the string as an unsigned base-2 integer v and subtracts `2^bitWidth`
exactly when the layout is signed and the most-significant bit is '1';
concretely `decode("11111111", Int8) = -1` and `encode(-1, Int8) =
"11111111"`. -/
theorem C3_twos_complement (dt : DataType) (hf : (DATA_TYPE_DETAILS dt).isFloat = false)
    (s : List Char) (hall : s.all isBit = true)
    (hlen : s.length = (DATA_TYPE_DETAILS dt).bits) :
    (convertBinaryToDecimal (String.mk s) dt =
      .ok (.num (if (DATA_TYPE_DETAILS dt).signed && (s.head? == some '1')
        then (parseBin s : ℚ) - 2 ^ (DATA_TYPE_DETAILS dt).bits
        else (parseBin s : ℚ))))
    ∧ convertBinaryToDecimal "11111111" .Int8 = .ok (.num (-1))
    ∧ convertDecimalToBinary (.num (-1)) .Int8 = .ok "11111111" := by
  refine ⟨decode_int_eval dt _ _ rfl rfl hf s hall hlen (bits_pos dt), ?_, rfl⟩
  rw [show ("11111111" : String) = String.mk ['1', '1', '1', '1', '1', '1', '1', '1'] from rfl]
  rw [decode_int_eval .Int8 8 true rfl rfl rfl _ (by decide) (by decide) (by norm_num)]
  norm_num [parseBin_cons, parseBin, bitToNat]

/-- Witness for C3 at the concrete full-width input "10101010" under Int8. -/
theorem C3_twos_complement_witness :
    convertBinaryToDecimal (String.mk ['1', '0', '1', '0', '1', '0', '1', '0']) .Int8 =
      .ok (.num (if (DATA_TYPE_DETAILS .Int8).signed
          && ((['1', '0', '1', '0', '1', '0', '1', '0'] : List Char).head? == some '1')
        then (parseBin ['1', '0', '1', '0', '1', '0', '1', '0'] : ℚ)
          - 2 ^ (DATA_TYPE_DETAILS .Int8).bits
        else (parseBin ['1', '0', '1', '0', '1', '0', '1', '0'] : ℚ))) :=
  (C3_twos_complement .Int8 rfl _ (by decide) (by decide)).1

/-- C10: decode applied to the empty string is rejected with the
invalid-binary-string error for every layout; it is never auto-padded. -/
theorem C10_empty_string_rejected (dt : DataType) :
    convertBinaryToDecimal "" dt = .error "Invalid binary string." := by
  cases dt <;> rfl

/-- C8: decode of an over-long bit string fails with the length-exceeded
error for every layout, and for integer layouts decode of a shorter bit
string equals decode of the same string left-padded with '0' to the layout
width; concretely `decode("1010", Int8) = decode("00001010", Int8) = 10`. -/
theorem C8_decode_length_policy :
    (∀ (dt : DataType) (s : String), s.data.all isBit = true →
      (DATA_TYPE_DETAILS dt).bits < s.length →
      convertBinaryToDecimal s dt = .error ("Binary string exceeds "
        ++ String.mk (natToDec (DATA_TYPE_DETAILS dt).bits) ++ " bits for "
        ++ dt.name ++ "."))
    ∧ (∀ (dt : DataType), (DATA_TYPE_DETAILS dt).isFloat = false →
      ∀ s : String, s.data ≠ [] → s.data.all isBit = true →
        s.length < (DATA_TYPE_DETAILS dt).bits →
        convertBinaryToDecimal s dt =
          convertBinaryToDecimal (String.mk (padStart s.data (DATA_TYPE_DETAILS dt).bits '0')) dt)
    ∧ convertBinaryToDecimal "1010" .Int8 = .ok (.num 10)
    ∧ convertBinaryToDecimal "00001010" .Int8 = .ok (.num 10) := by
  refine ⟨?_, ?_, rfl, rfl⟩
  · intro dt s hall hlen
    obtain ⟨l⟩ := s
    cases l with
    | nil => exact absurd hlen (by simp [length_mk])
    | cons c t =>
      have hbin : isBinaryString (String.mk (c :: t)) = true := by
        simp only [isBinaryString, data_mk, List.isEmpty_cons, Bool.not_false, Bool.true_and]
        exact hall
      simp only [convertBinaryToDecimal, hbin]
      rw [if_neg (by simp : ¬(true = false))]
      rw [if_pos (by simpa [length_mk] using hlen)]
  · intro dt hf s hne hall hlen
    obtain ⟨l⟩ := s
    have hall' : l.all isBit = true := hall
    have hne' : l ≠ [] := hne
    have hlen' : l.length < (DATA_TYPE_DETAILS dt).bits := by simpa [length_mk] using hlen
    rw [decode_int_short dt _ _ rfl rfl hf l hne' hall' (le_of_lt hlen')]
    rw [decode_int_eval dt _ _ rfl rfl hf (padStart l (DATA_TYPE_DETAILS dt).bits '0')
      (padStart_all_isBit _ _ hall') (by rw [padStart_length]; omega) (bits_pos dt)]
    rw [parseBin_padStart_zero]

/-- Witness for C8 at the over-long input "110011001" under Int8. -/
theorem C8_decode_length_policy_witness :
    convertBinaryToDecimal "110011001" .Int8 = .error ("Binary string exceeds "
      ++ String.mk (natToDec (DATA_TYPE_DETAILS .Int8).bits) ++ " bits for "
      ++ DataType.name .Int8 ++ ".") :=
  C8_decode_length_policy.1 .Int8 "110011001" (by decide) (by decide)

/-- C4: for every integer layout, encode fails with the not-an-integer
error on any value that is not a mathematical integer (such as 1.5), fails
with the out-of-range error on integers below the minimum or above the
maximum, and succeeds otherwise. -/
theorem C4_encode_int_validation :
    (∀ (dt : DataType), (DATA_TYPE_DETAILS dt).isFloat = false →
      (∀ x : JsNum, x.isInteger = false →
        convertDecimalToBinary x dt = .error "Only integers are allowed for this data type.")
      ∧ (∀ q : ℚ, q.den = 1 →
          (q < (DATA_TYPE_DETAILS dt).min ∨ (DATA_TYPE_DETAILS dt).max < q) →
          convertDecimalToBinary (.num q) dt =
            .error ("Value out of range for " ++ dt.name ++ "."))
      ∧ (∀ q : ℚ, q.den = 1 → (DATA_TYPE_DETAILS dt).min ≤ q →
          q ≤ (DATA_TYPE_DETAILS dt).max →
          exceptIsOk (convertDecimalToBinary (.num q) dt) = true))
    ∧ convertDecimalToBinary (.num (3 / 2)) .Int8 =
        .error "Only integers are allowed for this data type." := by
  have hgen : ∀ (dt : DataType), (DATA_TYPE_DETAILS dt).isFloat = false →
      (∀ x : JsNum, x.isInteger = false →
        convertDecimalToBinary x dt = .error "Only integers are allowed for this data type.")
      ∧ (∀ q : ℚ, q.den = 1 →
          (q < (DATA_TYPE_DETAILS dt).min ∨ (DATA_TYPE_DETAILS dt).max < q) →
          convertDecimalToBinary (.num q) dt =
            .error ("Value out of range for " ++ dt.name ++ "."))
      ∧ (∀ q : ℚ, q.den = 1 → (DATA_TYPE_DETAILS dt).min ≤ q →
          q ≤ (DATA_TYPE_DETAILS dt).max →
          exceptIsOk (convertDecimalToBinary (.num q) dt) = true) := by
    intro dt hf
    refine ⟨?_, ?_, ?_⟩
    · intro x hx
      simp only [convertDecimalToBinary, hf]
      rw [if_pos trivial, if_pos hx]
    · intro q hq1 hout
      have hint : ¬((JsNum.num q).isInteger = false) := by
        simp [JsNum.isInteger, hq1]
      have hcond : ((JsNum.num q).ltQ (DATA_TYPE_DETAILS dt).min
          || (JsNum.num q).gtQ (DATA_TYPE_DETAILS dt).max) = true := by
        rcases hout with h | h <;> simp [JsNum.ltQ, JsNum.gtQ, h]
      simp only [convertDecimalToBinary, hf]
      rw [if_pos trivial, if_neg hint, if_pos hcond]
    · intro q hq1 hmin hmax
      have hint : ¬((JsNum.num q).isInteger = false) := by
        simp [JsNum.isInteger, hq1]
      have hcond : ((JsNum.num q).ltQ (DATA_TYPE_DETAILS dt).min
          || (JsNum.num q).gtQ (DATA_TYPE_DETAILS dt).max) = false := by
        simp only [JsNum.ltQ, JsNum.gtQ, Bool.or_eq_false_iff, decide_eq_false_iff_not, not_lt]
        exact ⟨hmin, hmax⟩
      simp only [convertDecimalToBinary, hf]
      rw [if_pos trivial, if_neg hint, if_neg (by simp [hcond])]
      rfl
  refine ⟨hgen, ?_⟩
  have hden : (3 / 2 : ℚ).den = 2 := by norm_num
  exact (hgen .Int8 rfl).1 (.num (3 / 2)) (by simp [JsNum.isInteger, hden])

/-- Witness for C4: encoding the in-range integer 5 under Int8 succeeds. -/
theorem C4_encode_int_validation_witness :
    exceptIsOk (convertDecimalToBinary (.num (5 : ℚ)) .Int8) = true :=
  ((C4_encode_int_validation.1 .Int8 rfl).2.2) 5 (by norm_num)
    (by norm_num [DATA_TYPE_DETAILS]) (by norm_num [DATA_TYPE_DETAILS])

/-- C5: whenever encode succeeds, the returned bit string has length
exactly the layout's bit width and consists only of '0'/'1' characters. -/
theorem C5_encode_fixed_width (dt : DataType) (x : JsNum) (s : String)
    (h : convertDecimalToBinary x dt = .ok s) :
    s.length = (DATA_TYPE_DETAILS dt).bits ∧ s.data.all isBit = true := by
  cases dt with
  | Int8 =>
    exact encode_ok_width DataType.Int8 8 rfl rfl (by norm_num)
      (by norm_num [DATA_TYPE_DETAILS]) x s h
  | UInt8 =>
    exact encode_ok_width DataType.UInt8 8 rfl rfl (by norm_num)
      (by norm_num [DATA_TYPE_DETAILS]) x s h
  | Int16 =>
    exact encode_ok_width DataType.Int16 16 rfl rfl (by norm_num)
      (by norm_num [DATA_TYPE_DETAILS]) x s h
  | UInt16 =>
    exact encode_ok_width DataType.UInt16 16 rfl rfl (by norm_num)
      (by norm_num [DATA_TYPE_DETAILS]) x s h
  | Int32 =>
    exact encode_ok_width DataType.Int32 32 rfl rfl (by norm_num)
      (by norm_num [DATA_TYPE_DETAILS]) x s h
  | UInt32 =>
    exact encode_ok_width DataType.UInt32 32 rfl rfl (by norm_num)
      (by norm_num [DATA_TYPE_DETAILS]) x s h
  | Float32 =>
    exact encode_float_width DataType.Float32 rfl (by norm_num [DATA_TYPE_DETAILS]) x s h
  | Float64 =>
    exact encode_float_width DataType.Float64 rfl (by norm_num [DATA_TYPE_DETAILS]) x s h

/-- Witness for C5 at the concrete encoding of 5 under Int8. -/
theorem C5_encode_fixed_width_witness :
    ("00000101" : String).length = (DATA_TYPE_DETAILS .Int8).bits ∧
      ("00000101" : String).data.all isBit = true :=
  C5_encode_fixed_width .Int8 (.num 5) "00000101" rfl

theorem isBit_cases (c : Char) (h : isBit c = true) : c = '0' ∨ c = '1' := by
  simpa [isBit] using h

theorem toHexChar_isHexDigit (n : Nat) (hn : n < 16) : isHexDigit (toHexChar n) = true := by
  interval_cases n <;> decide

theorem toHexChar_not_ws (n : Nat) (hn : n < 16) : isWhitespaceChar (toHexChar n) = false := by
  interval_cases n <;> decide

theorem nibble_roundtrip (c1 c2 c3 c4 : Char) (h1 : isBit c1 = true) (h2 : isBit c2 = true)
    (h3 : isBit c3 = true) (h4 : isBit c4 = true) :
    padStart (natToBin (hexVal (toHexChar (parseBin [c1, c2, c3, c4])))) 4 '0' =
      [c1, c2, c3, c4] := by
  rcases isBit_cases c1 h1 with rfl | rfl <;> rcases isBit_cases c2 h2 with rfl | rfl <;>
    rcases isBit_cases c3 h3 with rfl | rfl <;> rcases isBit_cases c4 h4 with rfl | rfl <;>
    decide

theorem chunkHex_props (fuel : Nat) : ∀ l : List Char, l.length ≤ fuel →
    l.all isBit = true → l.length % 4 = 0 →
    ((chunkHex l).all (fun c => isHexDigit c && !isWhitespaceChar c) = true ∧
      ((chunkHex l).map (fun c => padStart (natToBin (hexVal c)) 4 '0')).flatten = l) := by
  induction fuel with
  | zero =>
    intro l hl _ _
    have hnil : l = [] := List.length_eq_zero.mp (by omega)
    subst hnil
    exact ⟨rfl, rfl⟩
  | succ f ih =>
    intro l hl hall hmod
    match l with
    | [] => exact ⟨rfl, rfl⟩
    | [c1] => simp at hmod
    | [c1, c2] => simp at hmod
    | [c1, c2, c3] => simp at hmod
    | c1 :: c2 :: c3 :: c4 :: rest =>
      simp only [List.all_cons, Bool.and_eq_true] at hall
      obtain ⟨hb1, hb2, hb3, hb4, hrest⟩ := hall
      have hlt : parseBin [c1, c2, c3, c4] < 16 := by
        have := parseBin_lt [c1, c2, c3, c4] (by simp [hb1, hb2, hb3, hb4])
        simpa using this
      have heq : chunkHex (c1 :: c2 :: c3 :: c4 :: rest) =
          toHexChar (parseBin [c1, c2, c3, c4]) :: chunkHex rest := rfl
      have hihyp := ih rest (by simp at hl; omega) hrest (by simp at hmod ⊢; omega)
      constructor
      · rw [heq, List.all_cons]
        simp only [toHexChar_isHexDigit _ hlt, toHexChar_not_ws _ hlt, Bool.not_false,
          Bool.and_self, Bool.true_and]
        exact hihyp.1
      · rw [heq, List.map_cons, List.flatten_cons,
          nibble_roundtrip c1 c2 c3 c4 hb1 hb2 hb3 hb4, hihyp.2]
        rfl

/-- C7: converting a nonempty bit string whose length is a multiple of 4 to
hex and back is the identity; concretely `bitsToHex("11111111") = "FF"` and
`hexToBits("FF") = "11111111"`. -/
theorem C7_hex_roundtrip (s : String) (hall : s.data.all isBit = true)
    (hmod : s.length % 4 = 0) (hpos : 0 < s.length) :
    (convertHexToBinary (convertBinaryToHex s) = .ok s)
    ∧ convertBinaryToHex "11111111" = "FF"
    ∧ convertHexToBinary "FF" = .ok "11111111" := by
  refine ⟨?_, rfl, rfl⟩
  obtain ⟨l⟩ := s
  have hall' : l.all isBit = true := hall
  have hlen : l.length % 4 = 0 := hmod
  have hne : l ≠ [] := by
    intro h
    subst h
    simp [length_mk] at hpos
  have hbin : isBinaryString (String.mk l) = true := by
    cases l with
    | nil => exact absurd rfl hne
    | cons c t =>
      simp only [isBinaryString, data_mk, List.isEmpty_cons, Bool.not_false, Bool.true_and]
      exact hall'
  have hplen : padStart l l.length '0' = l :=
    padStart_of_ge l l.length '0' le_rfl
  have hhex : convertBinaryToHex (String.mk l) = String.mk (chunkHex l) := by
    simp only [convertBinaryToHex, hbin, length_mk, data_mk]
    rw [if_neg (by simp : ¬(true = false)), hlen]
    norm_num
    rw [hplen]
  obtain ⟨hdig, hflat⟩ := chunkHex_props l.length l le_rfl hall' hlen
  have hfil : (chunkHex l).filter (fun c => !isWhitespaceChar c) = chunkHex l := by
    apply List.filter_eq_self.mpr
    intro a ha
    have := List.all_eq_true.mp hdig a ha
    simp only [Bool.and_eq_true] at this
    exact this.2
  have hdig2 : ((chunkHex l).all isHexDigit) = true := by
    apply List.all_eq_true.mpr
    intro a ha
    have := List.all_eq_true.mp hdig a ha
    simp only [Bool.and_eq_true] at this
    exact this.1
  rw [hhex]
  simp only [convertHexToBinary, data_mk, hfil, hdig2]
  rw [if_neg (by simp : ¬(true = false)), hflat]

/-- Witness for C7 at the concrete input "11111111". -/
theorem C7_hex_roundtrip_witness :
    convertHexToBinary (convertBinaryToHex "11111111") = .ok "11111111" :=
  (C7_hex_roundtrip "11111111" (by decide) (by decide) (by decide)).1

/-- C1 (code behaviour at the claimed input): decoding the 4-character bit
string "1010" under Float32 does NOT fail — the implementation left-pads it
to 32 bits exactly like the integer path and returns the subnormal value
10·2⁻¹⁴⁹, where the claim and the specification require a length-mismatch
error for float layouts. -/
theorem C1_decode_float_autopads :
    convertBinaryToDecimal "1010" .Float32 = .ok (.num (10 / 2 ^ 149)) := rfl

/-- C6: float encoding lays out the IEEE-754 bit pattern big-endian:
encode(1.0, Float32) yields "00111111100000000000000000000000", and
decoding that string under Float32 yields 1.0. -/
theorem C6_float32_layout :
    convertDecimalToBinary (.num 1) .Float32 = .ok "00111111100000000000000000000000"
    ∧ convertBinaryToDecimal "00111111100000000000000000000000" .Float32 = .ok (.num 1) := by
  refine ⟨rfl, ?_⟩
  have h1 : convertBinaryToDecimal "00111111100000000000000000000000" .Float32 =
      .ok (floatBitsToJs 8 23 127 1065353216) := rfl
  rw [h1]
  have ht : (23 : ℤ).toNat = 23 := rfl
  norm_num [floatBitsToJs, mulPow2, ht]

set_option maxRecDepth 8000 in
/-- C9: when the fixed-point rendering of a nonzero finite value rounds to
zero at the requested precision, the display formatter switches to
exponential notation; `formatDecimalForDisplay(1e-200, 15)` is not the
all-zero fixed string "0.000000000000000", while a true zero renders in
fixed point: `formatDecimalForDisplay(0, 3) = "0.000"`. -/
theorem C9_display_fallback :
    (∀ (q : ℚ) (p : Nat), q ≠ 0 → toFixedNat q p = 0 →
      formatDecimalForDisplay (.num q) p = toExponentialStr q p)
    ∧ formatDecimalForDisplay (.num (1 / 10 ^ 200)) 15 ≠ "0.000000000000000"
    ∧ formatDecimalForDisplay (.num 0) 3 = "0.000" := by
  have hq : (1 / 10 ^ 200 : ℚ) =
      (⟨1, 10 ^ 200, by norm_num, Nat.coprime_one_left _⟩ : ℚ) := by
    rw [Rat.mk'_eq_divInt, Rat.divInt_eq_div]
    push_cast
    norm_num
  refine ⟨?_, ?_, rfl⟩
  · intro q p hq0 h0
    have hn : ¬q.num = 0 := Rat.num_ne_zero.mpr hq0
    simp [formatDecimalForDisplay, hn, h0]
  · rw [hq]
    decide

set_option maxRecDepth 8000 in
/-- Witness for C9 at the concrete input 10⁻²⁰⁰ with precision 15. -/
theorem C9_display_fallback_witness :
    formatDecimalForDisplay (.num (⟨1, 10 ^ 200, by norm_num, Nat.coprime_one_left _⟩ : ℚ)) 15 =
      toExponentialStr (⟨1, 10 ^ 200, by norm_num, Nat.coprime_one_left _⟩ : ℚ) 15 :=
  C9_display_fallback.1 _ 15 (by decide) (by decide)
